import Mathlib

/-!
Shallow embedding of the `bootstrap` package (TomDonoghue/bootstrap):
basic bootstrapping for estimation statistics.  The repository's notebook
calls four core functions (`sample_bootstrap`, `compute_bootstrap_estimates`,
`compute_cis`, `compute_pvalue`) from the `bootstrap/` module; the module's
source is not present here, so the functions are modelled from the spec.
Real numbers are embedded as rationals; the pseudorandom source is an
explicit index generator; fallible operations return `Except String`.
-/

namespace Bootstrap

/-- Modelled from the spec: the sorted version of an estimate sequence,
used conceptually by the percentile computation (§4.3). -/
def sortQ (xs : List ℚ) : List ℚ := List.insertionSort (· ≤ ·) xs

/-- Modelled from the spec: linear interpolation between order statistics of
an (already sorted) sequence `s` at fractional rank `h` (§4.3): the value is
`s[⌊h⌋] + (h - ⌊h⌋) * (s[⌊h⌋+1] - s[⌊h⌋])`, with the upper neighbour
defaulting to the lower one at the top end. -/
def interpolate (s : List ℚ) (h : ℚ) : ℚ :=
  let i := (⌊h⌋).toNat
  let lo := s.getD i 0
  let hi := s.getD (i + 1) lo
  lo + (h - (i : ℚ)) * (hi - lo)

/-- Modelled from the spec: the `q`-th percentile of `xs` (0 ≤ q ≤ 100),
computed by sorting and linearly interpolating between order statistics at
fractional rank `(q/100) * (len - 1)` — the standard percentile convention
named in §4.3. -/
def percentile (xs : List ℚ) (q : ℚ) : ℚ :=
  interpolate (sortQ xs) ((q / 100) * ((xs.length : ℚ) - 1))

/-- Modelled from the spec (§4.3, Contract A): `compute_cis(estimates, alpha)`
returns the `100*(alpha/2)`-th and `100*(1-alpha/2)`-th percentiles of the
estimate distribution; fails fast on an empty sequence or `alpha` outside
(0,1) (§7). -/
def compute_cis (estimates : List ℚ) (alpha : ℚ) : Except String (ℚ × ℚ) :=
  if estimates.isEmpty then .error "estimates must be a non-empty sequence"
  else if ¬ (0 < alpha ∧ alpha < 1) then .error "alpha must lie in (0, 1)"
  else .ok (percentile estimates (100 * (alpha / 2)),
            percentile estimates (100 * (1 - alpha / 2)))

/-- Modelled from the spec (§4.3, Contract B): `compute_pvalue(estimates, value)`
returns `2 * min(prop_below, prop_above)` capped at 1, where `prop_below`
(resp. `prop_above`) is the fraction of estimates strictly below (resp. above)
`value`; fails fast on an empty sequence (§7). -/
def compute_pvalue (estimates : List ℚ) (value : ℚ := 0) : Except String ℚ :=
  if estimates.isEmpty then .error "estimates must be a non-empty sequence"
  else
    let n : ℚ := (estimates.length : ℚ)
    let prop_below : ℚ := ((estimates.filter (fun x => x < value)).length : ℚ) / n
    let prop_above : ℚ := ((estimates.filter (fun x => value < x)).length : ℚ) / n
    .ok (min (2 * min prop_below prop_above) 1)

/-- Modelled from the spec: the observed median of a sequence (§4.3 edge case),
with the usual convention: sort, take the middle element for odd length and
the mean of the two middle elements for even length. -/
def median (xs : List ℚ) : ℚ :=
  let s := sortQ xs
  let n := s.length
  if n % 2 = 1 then s.getD (n / 2) 0
  else (s.getD (n / 2 - 1) 0 + s.getD (n / 2) 0) / 2

/-- Modelled from the spec (§4.1, §5): the index vectors drawn by the
pseudorandom source — for each draw `i < n_samples` one vector of length `N`
whose `j`-th entry is an integer in `[0, N)`.  The raw generator stream `gen`
is explicit; reduction modulo `N` embeds "sampling integers in [0, N)". -/
def mkIdxs (gen : ℕ → ℕ → ℕ) (n_samples N : ℕ) : List (List ℕ) :=
  (List.range n_samples).map (fun i => (List.range N).map (fun j => gen i j % N))

/-- Modelled from the spec (§4.1): one resampled row — the index vector `idx`
applied to the array `arr` (elements fetched by position). -/
def resampleRow (arr : List ℚ) (idx : List ℕ) : List ℚ :=
  idx.map (fun k => arr.getD k 0)

/-- Modelled from the spec (§4.1): the resample collection for one array —
every index vector applied to it, one row per draw. -/
def resampleArray (idxs : List (List ℕ)) (arr : List ℚ) : List (List ℚ) :=
  idxs.map (resampleRow arr)

/-- Modelled from the spec (§4.1): the return arity of `sample_bootstrap`
matches the arity of the input — a single collection when one array is
passed, a tuple of collections otherwise. -/
inductive BootstrapResult where
  | single : List (List ℚ) → BootstrapResult
  | multiple : List (List (List ℚ)) → BootstrapResult
deriving DecidableEq

/-- Modelled from the spec (§4.1): `sample_bootstrap(n_samples, *arrays)` —
fails fast when `n_samples ≤ 0`, no array is supplied, the arrays' lengths
differ, or the common length is 0 (§7); otherwise draws one index vector per
draw and applies it identically to every supplied array, returning one
resample collection per array in input order. -/
def sample_bootstrap (gen : ℕ → ℕ → ℕ) (n_samples : ℤ) (arrays : List (List ℚ)) :
    Except String BootstrapResult :=
  if n_samples ≤ 0 then .error "n_samples must be a positive integer"
  else if arrays.isEmpty then .error "at least one array must be supplied"
  else if ¬ arrays.all (fun a => a.length = (arrays.headD []).length) then
    .error "all arrays must have identical length"
  else if (arrays.headD []).length = 0 then .error "arrays must be non-empty"
  else
    let N := (arrays.headD []).length
    let idxs := mkIdxs gen n_samples.toNat N
    match arrays.map (resampleArray idxs) with
    | [c] => .ok (.single c)
    | cs => .ok (.multiple cs)

/-- Modelled from the spec (§4.2): `compute_bootstrap_estimates(ca, cb, f)` —
fails fast when the two resample collections' shapes mismatch (§7); otherwise
applies the statistic function to each pair of corresponding rows and keeps
the first component of each returned tuple, in draw order. -/
def compute_bootstrap_estimates (ca cb : List (List ℚ))
    (statistic_fn : List ℚ → List ℚ → ℚ × ℚ) : Except String (List ℚ) :=
  if ca.length = cb.length ∧ ∀ p ∈ ca.zip cb, p.1.length = p.2.length then
    .ok ((ca.zip cb).map (fun p => (statistic_fn p.1 p.2).1))
  else .error "resample collections must have matching shapes"

/-- Modelled from the spec (§4.2 guarantee): element-wise subtraction of two
estimate sequences (the notebook's `corrs_ab - corrs_ac`), the numpy
element-wise arithmetic the estimate sequences support. -/
def arraySub (xs ys : List ℚ) : List ℚ := List.zipWith (fun a b => a - b) xs ys

/-- Whether an `Except` value is an error. -/
def isError {α : Type} (e : Except String α) : Prop := ∃ m, e = .error m

end Bootstrap

namespace Bootstrap

/-! ### Helper lemmas -/

lemma getD_range_map {β : Type} (f : ℕ → β) (n i : ℕ) (d : β) (hi : i < n) :
    (((List.range n).map f).getD i d) = f i := by
  have hlen : i < ((List.range n).map f).length := by
    simpa using hi
  rw [List.getD_eq_getElem _ _ hlen, List.getElem_map]
  simp

lemma getD_mem {α : Type} (l : List α) (d : α) {i : ℕ} (hi : i < l.length) :
    l.getD i d ∈ l := by
  rw [List.getD_eq_getElem _ _ hi]
  exact List.getElem_mem hi

lemma sorted_getD_le (s : List ℚ) (hs : List.Sorted (· ≤ ·) s) {i j : ℕ}
    (hij : i ≤ j) (hj : j < s.length) : s.getD i 0 ≤ s.getD j 0 := by
  have hi : i < s.length := lt_of_le_of_lt hij hj
  rw [List.getD_eq_getElem _ _ hi, List.getD_eq_getElem _ _ hj]
  have := hs.rel_get_of_le (a := ⟨i, hi⟩) (b := ⟨j, hj⟩) hij
  simpa using this

/-- The upper interpolation neighbour is at least the lower one, whatever the
index (in range by sortedness, out of range because the default is the lower
neighbour itself). -/
lemma step_nonneg (s : List ℚ) (hs : List.Sorted (· ≤ ·) s) (i : ℕ) :
    s.getD i 0 ≤ s.getD (i + 1) (s.getD i 0) := by
  rcases lt_or_le (i + 1) s.length with hlt | hge
  · rw [List.getD_eq_getElem _ _ hlt]
    have hi : i < s.length := lt_trans (Nat.lt_succ_self i) hlt
    rw [List.getD_eq_getElem _ _ hi]
    have := hs.rel_get_of_le (a := ⟨i, hi⟩) (b := ⟨i + 1, hlt⟩)
      (by simp [Fin.le_def])
    simpa using this
  · rw [List.getD_eq_default _ _ hge]

end Bootstrap

namespace Bootstrap

lemma resampleArray_getD (idxs : List (List ℕ)) (arr : List ℚ) {i : ℕ}
    (hi : i < idxs.length) :
    (resampleArray idxs arr).getD i [] = resampleRow arr (idxs.getD i []) := by
  unfold resampleArray
  have hlen : i < (idxs.map (resampleRow arr)).length := by simpa using hi
  rw [List.getD_eq_getElem _ _ hlen, List.getElem_map,
    List.getD_eq_getElem _ _ hi]

lemma mkIdxs_getD (gen : ℕ → ℕ → ℕ) (n N i : ℕ) (hi : i < n) :
    (mkIdxs gen n N).getD i [] = (List.range N).map (fun j => gen i j % N) := by
  unfold mkIdxs
  exact getD_range_map _ _ _ _ hi

lemma mkIdxs_length (gen : ℕ → ℕ → ℕ) (n N : ℕ) : (mkIdxs gen n N).length = n := by
  simp [mkIdxs]

lemma resampleRow_mkIdxs_getD (gen : ℕ → ℕ → ℕ) (n N : ℕ) (arr : List ℚ)
    {i j : ℕ} (hi : i < n) (hj : j < N) :
    ((resampleArray (mkIdxs gen n N) arr).getD i []).getD j 0
      = arr.getD (gen i j % N) 0 := by
  rw [resampleArray_getD _ _ (by simpa [mkIdxs_length] using hi),
    mkIdxs_getD _ _ _ _ hi]
  unfold resampleRow
  rw [List.map_map]
  exact getD_range_map _ _ _ _ hj

end Bootstrap

namespace Bootstrap

/-! ### C1: joint resampling preserves cross-array row alignment -/

/-- C1: within each draw of `sample_bootstrap`, a single index vector is
applied identically to every supplied array: for any two arrays `a`, `b` of
common length `N ≥ 1` resampled together, for every draw `i` and position `j`
there is a single index `k < N` with `collection_a[i][j] = a[k]` and
`collection_b[i][j] = b[k]` — cross-array row alignment is never broken. -/
theorem sample_bootstrap_row_alignment (gen : ℕ → ℕ → ℕ) (n N : ℕ)
    (a b : List ℚ) (ha : a.length = N) (hb : b.length = N) (hN : 0 < N)
    (i j : ℕ) (hi : i < n) (hj : j < N) :
    ∃ k, k < N ∧
      ((resampleArray (mkIdxs gen n N) a).getD i []).getD j 0 = a.getD k 0 ∧
      ((resampleArray (mkIdxs gen n N) b).getD i []).getD j 0 = b.getD k 0 :=
  ⟨gen i j % N, Nat.mod_lt _ hN,
    resampleRow_mkIdxs_getD gen n N a hi hj,
    resampleRow_mkIdxs_getD gen n N b hi hj⟩

/-- C1 witness. -/
theorem sample_bootstrap_row_alignment_witness :
    ∃ k, k < 2 ∧
      ((resampleArray (mkIdxs (fun i j => i + j) 1 2) [5, 7]).getD 0 []).getD 1 0
        = ([5, 7] : List ℚ).getD k 0 ∧
      ((resampleArray (mkIdxs (fun i j => i + j) 1 2) [4, 6]).getD 0 []).getD 1 0
        = ([4, 6] : List ℚ).getD k 0 :=
  sample_bootstrap_row_alignment (fun i j => i + j) 1 2 [5, 7] [4, 6]
    (by decide) (by decide) (by decide) 0 1 (by decide) (by decide)

end Bootstrap

namespace Bootstrap

/-! ### C5: sample_bootstrap output arity, order, shape, and value provenance -/

lemma resampleArray_shape (gen : ℕ → ℕ → ℕ) (n N : ℕ) (arr : List ℚ)
    (harr : arr.length = N) (hN : 0 < N) :
    (resampleArray (mkIdxs gen n N) arr).length = n ∧
    ∀ row ∈ resampleArray (mkIdxs gen n N) arr,
      row.length = N ∧ ∀ x ∈ row, x ∈ arr := by
  constructor
  · simp [resampleArray, mkIdxs]
  · intro row hrow
    obtain ⟨idx, hidx, rfl⟩ := List.mem_map.mp hrow
    rw [mkIdxs] at hidx
    obtain ⟨i, _, rfl⟩ := List.mem_map.mp hidx
    constructor
    · simp [resampleRow]
    · intro x hx
      rw [resampleRow, List.map_map] at hx
      obtain ⟨j, _, rfl⟩ := List.mem_map.mp hx
      exact getD_mem arr 0 (by rw [harr]; exact Nat.mod_lt _ hN)

/-- C5: for `n_samples ≥ 1` and arrays of identical length `N ≥ 1`,
`sample_bootstrap` returns one resample collection per input array in input
order (a bare single collection when exactly one array is passed, a tuple of
`k` collections otherwise), each of shape `(n_samples, N)`, and every element
of every resampled row is a member of the corresponding original array. -/
theorem sample_bootstrap_output_spec (gen : ℕ → ℕ → ℕ) (n_samples : ℤ)
    (arrays : List (List ℚ)) (N : ℕ) (hn : 0 < n_samples)
    (hne : arrays ≠ []) (hlen : ∀ a ∈ arrays, a.length = N) (hN : 0 < N) :
    (∀ a, arrays = [a] →
      sample_bootstrap gen n_samples arrays
        = .ok (.single (resampleArray (mkIdxs gen n_samples.toNat N) a))) ∧
    (1 < arrays.length →
      sample_bootstrap gen n_samples arrays
        = .ok (.multiple (arrays.map (resampleArray (mkIdxs gen n_samples.toNat N))))) ∧
    (∀ arr ∈ arrays,
      (resampleArray (mkIdxs gen n_samples.toNat N) arr).length = n_samples.toNat ∧
      ∀ row ∈ resampleArray (mkIdxs gen n_samples.toNat N) arr,
        row.length = N ∧ ∀ x ∈ row, x ∈ arr) := by
  refine ⟨?_, ?_, ?_⟩
  · rintro a rfl
    have hla : a.length = N := hlen a (by simp)
    simp [sample_bootstrap, not_le.mpr hn, hla, hN.ne']
  · intro hlong
    rcases arrays with _ | ⟨a, rest⟩
    · simp at hne
    rcases rest with _ | ⟨b, rest⟩
    · simp at hlong
    have hla : a.length = N := hlen a (by simp)
    have hlb : b.length = N := hlen b (by simp)
    have hrest : ∀ c ∈ rest, c.length = N := by
      intro c hc
      exact hlen c (by simp [hc])
    simp [sample_bootstrap, not_le.mpr hn, hla, hlb, hN.ne', hrest]
    try exact hrest
  · intro arr harr
    exact resampleArray_shape gen n_samples.toNat N arr (hlen arr harr) hN

/-- C5 witness. -/
theorem sample_bootstrap_output_spec_witness :
    (∀ a, ([[1, 2]] : List (List ℚ)) = [a] →
      sample_bootstrap (fun i j => i + j) 3 [[1, 2]]
        = .ok (.single (resampleArray (mkIdxs (fun i j => i + j) (3 : ℤ).toNat 2) a))) ∧
    (1 < ([[1, 2]] : List (List ℚ)).length →
      sample_bootstrap (fun i j => i + j) 3 [[1, 2]]
        = .ok (.multiple ([[1, 2]].map (resampleArray (mkIdxs (fun i j => i + j) (3 : ℤ).toNat 2))))) ∧
    (∀ arr ∈ ([[1, 2]] : List (List ℚ)),
      (resampleArray (mkIdxs (fun i j => i + j) (3 : ℤ).toNat 2) arr).length = (3 : ℤ).toNat ∧
      ∀ row ∈ resampleArray (mkIdxs (fun i j => i + j) (3 : ℤ).toNat 2) arr,
        row.length = 2 ∧ ∀ x ∈ row, x ∈ arr) :=
  sample_bootstrap_output_spec (fun i j => i + j) 3 [[1, 2]] 2 (by decide)
    (by decide) (by decide) (by decide)

end Bootstrap

namespace Bootstrap

/-! ### C4: compute_bootstrap_estimates produces n_samples values in draw order -/

/-- C4: for resample collections of matching shape `(n_samples, N)` and a
statistic function returning a pair, `compute_bootstrap_estimates` returns
exactly `n_samples` scalars, the `i`-th being the first component of
`statistic_fn(collection_a[i], collection_b[i])`, in draw order. -/
theorem compute_bootstrap_estimates_spec (ca cb : List (List ℚ))
    (statistic_fn : List ℚ → List ℚ → ℚ × ℚ) (n N : ℕ)
    (hca : ca.length = n) (hcb : cb.length = n)
    (hra : ∀ r ∈ ca, r.length = N) (hrb : ∀ r ∈ cb, r.length = N) :
    ∃ es, compute_bootstrap_estimates ca cb statistic_fn = .ok es ∧
      es.length = n ∧
      ∀ i, i < n →
        es.getD i 0 = (statistic_fn (ca.getD i []) (cb.getD i [])).1 := by
  have hcond : ca.length = cb.length ∧ ∀ p ∈ ca.zip cb, p.1.length = p.2.length := by
    refine ⟨by rw [hca, hcb], ?_⟩
    rintro ⟨r1, r2⟩ hp
    obtain ⟨h1, h2⟩ := List.of_mem_zip hp
    rw [hra _ h1, hrb _ h2]
  refine ⟨_, by rw [compute_bootstrap_estimates, if_pos hcond], ?_, ?_⟩
  · simp [List.length_zip, hca, hcb]
  · intro i hi
    have hlz : i < ((ca.zip cb).map
        (fun p => (statistic_fn p.1 p.2).1)).length := by
      simp [List.length_zip, hca, hcb, hi]
    have hia : i < ca.length := by rw [hca]; exact hi
    have hib : i < cb.length := by rw [hcb]; exact hi
    rw [List.getD_eq_getElem _ _ hlz, List.getElem_map, List.getElem_zip,
      List.getD_eq_getElem _ _ hia, List.getD_eq_getElem _ _ hib]

/-- C4 witness. -/
theorem compute_bootstrap_estimates_spec_witness :
    ∃ es, compute_bootstrap_estimates [[1, 2], [3, 4]] [[5, 6], [7, 8]]
        (fun r1 r2 => (r1.getD 0 0 + r2.getD 0 0, 0)) = .ok es ∧
      es.length = 2 ∧
      ∀ i, i < 2 →
        es.getD i 0 = ((fun (r1 r2 : List ℚ) => (r1.getD 0 0 + r2.getD 0 0, (0 : ℚ)))
          (([[1, 2], [3, 4]] : List (List ℚ)).getD i [])
          (([[5, 6], [7, 8]] : List (List ℚ)).getD i [])).1 :=
  compute_bootstrap_estimates_spec [[1, 2], [3, 4]] [[5, 6], [7, 8]]
    (fun r1 r2 => (r1.getD 0 0 + r2.getD 0 0, 0)) 2 2 (by decide) (by decide)
    (by decide) (by decide)

/-! ### C10: estimate sequences support element-wise differencing -/

/-- C10: two estimate sequences returned by `compute_bootstrap_estimates`
with common length `n_samples` can be differenced element-wise: the result
has `n_samples` entries and its `i`-th entry is the difference of the `i`-th
entries (the notebook's `corrs_ab - corrs_ac`). -/
theorem estimate_sequences_elementwise_sub (ca cb cc : List (List ℚ))
    (f g : List ℚ → List ℚ → ℚ × ℚ) (es1 es2 : List ℚ) (n : ℕ)
    (h1 : compute_bootstrap_estimates ca cb f = .ok es1)
    (h2 : compute_bootstrap_estimates ca cc g = .ok es2)
    (hl1 : es1.length = n) (hl2 : es2.length = n) :
    (arraySub es1 es2).length = n ∧
    ∀ i, i < n → (arraySub es1 es2).getD i 0 = es1.getD i 0 - es2.getD i 0 := by
  unfold arraySub
  constructor
  · simp [hl1, hl2]
  · intro i hi
    have hiz : i < (List.zipWith (fun a b => a - b) es1 es2).length := by
      simp [hl1, hl2, hi]
    have hi1 : i < es1.length := by rw [hl1]; exact hi
    have hi2 : i < es2.length := by rw [hl2]; exact hi
    rw [List.getD_eq_getElem _ _ hiz, List.getD_eq_getElem _ _ hi1,
      List.getD_eq_getElem _ _ hi2, List.getElem_zipWith]

/-- C10 witness. -/
theorem estimate_sequences_elementwise_sub_witness :
    (arraySub [3, 4] [1, 1]).length = 2 ∧
    ∀ i, i < 2 → (arraySub [3, 4] [1, 1]).getD i 0
      = ([3, 4] : List ℚ).getD i 0 - ([1, 1] : List ℚ).getD i 0 :=
  estimate_sequences_elementwise_sub [[1], [2]] [[1], [2]] [[1], [2]]
    (fun r _ => (r.getD 0 0 + 2, 0)) (fun _ _ => (1, 0)) [3, 4] [1, 1] 2
    (by norm_num [compute_bootstrap_estimates, List.zip])
    (by norm_num [compute_bootstrap_estimates, List.zip])
    (by decide) (by decide)

end Bootstrap

namespace Bootstrap

/-! ### C2: compute_pvalue returns the capped two-sided empirical p-value -/

/-- C2: for non-empty `estimates` and any `value`, `compute_pvalue` returns
`2 * min(prop_below, prop_above)` capped at 1, where `prop_below` and
`prop_above` are the fractions of estimates strictly below and strictly above
`value`; the result always lies in `[0, 1]`. -/
theorem compute_pvalue_spec (estimates : List ℚ) (value : ℚ)
    (hne : estimates ≠ []) :
    compute_pvalue estimates value
      = .ok (min (2 * min
          (((estimates.filter (fun x => x < value)).length : ℚ) / (estimates.length : ℚ))
          (((estimates.filter (fun x => value < x)).length : ℚ) / (estimates.length : ℚ))) 1) ∧
    ∀ p, compute_pvalue estimates value = .ok p → 0 ≤ p ∧ p ≤ 1 := by
  have heq : compute_pvalue estimates value
      = .ok (min (2 * min
          (((estimates.filter (fun x => x < value)).length : ℚ) / (estimates.length : ℚ))
          (((estimates.filter (fun x => value < x)).length : ℚ) / (estimates.length : ℚ))) 1) := by
    rw [compute_pvalue, if_neg (by simp [hne])]
  refine ⟨heq, ?_⟩
  intro p hp
  rw [heq, Except.ok.injEq] at hp
  subst hp
  constructor
  · apply le_min _ zero_le_one
    apply mul_nonneg (by norm_num)
    apply le_min <;> positivity
  · exact min_le_right _ _

/-- C2 witness. -/
theorem compute_pvalue_spec_witness :
    compute_pvalue [(-1 : ℚ), 2, 3] 0
      = .ok (min (2 * min
          (((([(-1 : ℚ), 2, 3]).filter (fun x => x < 0)).length : ℚ) / (([(-1 : ℚ), 2, 3]).length : ℚ))
          (((([(-1 : ℚ), 2, 3]).filter (fun x => 0 < x)).length : ℚ) / (([(-1 : ℚ), 2, 3]).length : ℚ))) 1) ∧
    ∀ p, compute_pvalue [(-1 : ℚ), 2, 3] 0 = .ok p → 0 ≤ p ∧ p ≤ 1 :=
  compute_pvalue_spec [(-1 : ℚ), 2, 3] 0 (by decide)

/-! ### C7: core operations fail fast on invalid input -/

/-- C7: each core operation reports an error (rather than truncating, padding
or proceeding) on invalid input: `sample_bootstrap` on `n_samples ≤ 0` or on
arrays of differing lengths; `compute_bootstrap_estimates` on collections of
differing shapes; `compute_cis` on an empty sequence or `alpha` outside
(0,1); `compute_pvalue` on an empty sequence. -/
theorem core_operations_fail_fast :
    (∀ (gen : ℕ → ℕ → ℕ) (n_samples : ℤ) (arrays : List (List ℚ)),
      n_samples ≤ 0 → isError (sample_bootstrap gen n_samples arrays)) ∧
    (∀ (gen : ℕ → ℕ → ℕ) (n_samples : ℤ) (arrays : List (List ℚ)) (a b : List ℚ),
      a ∈ arrays → b ∈ arrays → a.length ≠ b.length →
      isError (sample_bootstrap gen n_samples arrays)) ∧
    (∀ (ca cb : List (List ℚ)) (f : List ℚ → List ℚ → ℚ × ℚ),
      ca.length ≠ cb.length → isError (compute_bootstrap_estimates ca cb f)) ∧
    (∀ (ca cb : List (List ℚ)) (f : List ℚ → List ℚ → ℚ × ℚ)
      (p : List ℚ × List ℚ), p ∈ ca.zip cb → p.1.length ≠ p.2.length →
      isError (compute_bootstrap_estimates ca cb f)) ∧
    (∀ (estimates : List ℚ) (alpha : ℚ),
      estimates = [] ∨ alpha ≤ 0 ∨ 1 ≤ alpha → isError (compute_cis estimates alpha)) ∧
    (∀ value : ℚ, isError (compute_pvalue [] value)) := by
  refine ⟨?_, ?_, ?_, ?_, ?_, ?_⟩
  · intro gen n_samples arrays hn
    exact ⟨_, by rw [sample_bootstrap, if_pos hn]⟩
  · intro gen n_samples arrays a b hain hbin hab
    rw [sample_bootstrap]
    rcases le_or_lt n_samples 0 with hn | hn
    · exact ⟨_, by rw [if_pos hn]⟩
    rw [if_neg (not_le.mpr hn)]
    have hnotempty : arrays.isEmpty = false := by
      rcases arrays with _ | _
      · simp at hain
      · rfl
    rw [hnotempty, if_neg (by simp)]
    have hfail : ¬ arrays.all (fun c => decide (c.length = (arrays.headD []).length)) := by
      intro hall
      rw [List.all_eq_true] at hall
      have h1 := of_decide_eq_true (hall a hain)
      have h2 := of_decide_eq_true (hall b hbin)
      exact hab (h1.trans h2.symm)
    exact ⟨_, by rw [if_pos hfail]⟩
  · intro ca cb f hab
    exact ⟨_, by rw [compute_bootstrap_estimates, if_neg (fun hc => hab hc.1)]⟩
  · intro ca cb f p hp hplen
    exact ⟨_, by
      rw [compute_bootstrap_estimates, if_neg (fun hc => hplen (hc.2 p hp))]⟩
  · intro estimates alpha hbad
    rcases hbad with rfl | hbad
    · exact ⟨_, by
        rw [compute_cis, if_pos (show ([] : List ℚ).isEmpty = true from rfl)]⟩
    rw [compute_cis]
    rcases hemp : estimates.isEmpty with _ | _
    · rw [if_neg (by simp [hemp])]
      have : ¬ (0 < alpha ∧ alpha < 1) := by
        rcases hbad with hb | hb
        · exact fun hc => absurd hc.1 (not_lt.mpr hb)
        · exact fun hc => absurd hc.2 (not_lt.mpr hb)
      exact ⟨_, by rw [if_pos (by simpa using this)]⟩
    · exact ⟨_, by rw [if_pos (by simp [hemp])]⟩
  · intro value
    exact ⟨_, by
      rw [compute_pvalue, if_pos (show ([] : List ℚ).isEmpty = true from rfl)]⟩

/-- C7 witness. -/
theorem core_operations_fail_fast_witness :
    isError (sample_bootstrap (fun _ _ => 0) 0 [[1]]) ∧
    isError (sample_bootstrap (fun _ _ => 0) 5 [[1], [1, 2]]) ∧
    isError (compute_bootstrap_estimates [[1]] [] (fun _ _ => (0, 0))) ∧
    isError (compute_bootstrap_estimates [[1]] [[1, 2]] (fun _ _ => (0, 0))) ∧
    isError (compute_cis [1, 2] 2) ∧
    isError (compute_pvalue [] 0) :=
  ⟨core_operations_fail_fast.1 (fun _ _ => 0) 0 [[1]] (by decide),
   core_operations_fail_fast.2.1 (fun _ _ => 0) 5 [[1], [1, 2]] [1] [1, 2]
     (by decide) (by decide) (by decide),
   core_operations_fail_fast.2.2.1 [[1]] [] (fun _ _ => (0, 0)) (by decide),
   core_operations_fail_fast.2.2.2.1 [[1]] [[1, 2]] (fun _ _ => (0, 0))
     ([1], [1, 2]) (by decide) (by decide),
   core_operations_fail_fast.2.2.2.2.1 [1, 2] 2 (Or.inr (Or.inr (by norm_num))),
   core_operations_fail_fast.2.2.2.2.2 0⟩

end Bootstrap

namespace Bootstrap

/-! ### C9: single-element distribution -/

lemma percentile_single (v q : ℚ) : percentile [v] q = v := by
  simp [percentile, interpolate, sortQ, List.insertionSort, List.orderedInsert]

/-- C9: for a single-element distribution `[v]` and any `alpha` in (0,1),
`compute_cis` returns exactly the degenerate interval `(v, v)`. -/
theorem compute_cis_single (v alpha : ℚ) (h0 : 0 < alpha) (h1 : alpha < 1) :
    compute_cis [v] alpha = .ok (v, v) := by
  rw [compute_cis, if_neg (by simp), if_neg (by simp [h0, h1]),
    percentile_single, percentile_single]

/-- C9 witness. -/
theorem compute_cis_single_witness :
    compute_cis [(3 : ℚ)] (1 / 2) = .ok (3, 3) :=
  compute_cis_single 3 (1 / 2) (by norm_num) (by norm_num)

end Bootstrap


namespace Bootstrap

/-! ### Monotonicity of the percentile computation -/

lemma interpolate_eq (s : List ℚ) (h : ℚ) :
    interpolate s h = s.getD (⌊h⌋).toNat 0 + (h - (((⌊h⌋).toNat : ℕ) : ℚ))
      * (s.getD ((⌊h⌋).toNat + 1) (s.getD (⌊h⌋).toNat 0) - s.getD (⌊h⌋).toNat 0) := rfl

/-- Core monotonicity step, phrased over explicit bracket indices. -/
lemma interp_core_mono (s : List ℚ) (hs : List.Sorted (· ≤ ·) s)
    (i1 i2 : ℕ) (h1 h2 : ℚ) (hf1 : ((i1 : ℕ) : ℚ) ≤ h1)
    (hg1 : h1 < ((i1 : ℕ) : ℚ) + 1) (hf2 : ((i2 : ℕ) : ℚ) ≤ h2)
    (h12 : h1 ≤ h2) (h12n : i1 ≤ i2) (hi2lt : i2 < s.length) :
    s.getD i1 0 + (h1 - ((i1 : ℕ) : ℚ))
        * (s.getD (i1 + 1) (s.getD i1 0) - s.getD i1 0)
      ≤ s.getD i2 0 + (h2 - ((i2 : ℕ) : ℚ))
        * (s.getD (i2 + 1) (s.getD i2 0) - s.getD i2 0) := by
  rcases eq_or_lt_of_le h12n with heq | hlt
  · subst heq
    have hd : 0 ≤ s.getD (i1 + 1) (s.getD i1 0) - s.getD i1 0 :=
      sub_nonneg.mpr (step_nonneg s hs i1)
    have := mul_le_mul_of_nonneg_right
      (sub_le_sub_right h12 ((i1 : ℕ) : ℚ)) hd
    linarith
  · have hi1succ : i1 + 1 ≤ i2 := hlt
    have hi1slt : i1 + 1 < s.length := lt_of_le_of_lt hi1succ hi2lt
    have hlo1m : s.getD i1 0 ≤ s.getD (i1 + 1) 0 :=
      sorted_getD_le s hs (Nat.le_succ i1) hi1slt
    have hmid : s.getD (i1 + 1) 0 ≤ s.getD i2 0 :=
      sorted_getD_le s hs hi1succ hi2lt
    have hhi1 : s.getD (i1 + 1) (s.getD i1 0) = s.getD (i1 + 1) 0 := by
      rw [List.getD_eq_getElem _ _ hi1slt, List.getD_eq_getElem _ _ hi1slt]
    have hup : s.getD i1 0 + (h1 - ((i1 : ℕ) : ℚ))
        * (s.getD (i1 + 1) (s.getD i1 0) - s.getD i1 0) ≤ s.getD (i1 + 1) 0 := by
      rw [hhi1]
      have ht1 : h1 - ((i1 : ℕ) : ℚ) ≤ 1 := by linarith
      have hd : 0 ≤ s.getD (i1 + 1) 0 - s.getD i1 0 := sub_nonneg.mpr hlo1m
      have := mul_le_of_le_one_left hd ht1
      linarith
    have hdown : s.getD i2 0 ≤ s.getD i2 0 + (h2 - ((i2 : ℕ) : ℚ))
        * (s.getD (i2 + 1) (s.getD i2 0) - s.getD i2 0) := by
      have ht2 : 0 ≤ h2 - ((i2 : ℕ) : ℚ) := by linarith
      have hd : 0 ≤ s.getD (i2 + 1) (s.getD i2 0) - s.getD i2 0 :=
        sub_nonneg.mpr (step_nonneg s hs i2)
      nlinarith
    exact le_trans hup (le_trans hmid hdown)

/-- Linear interpolation between order statistics of a sorted sequence is
monotone in the fractional rank, as long as the rank stays within
`[0, length - 1]`. -/
lemma interpolate_mono_rank (s : List ℚ) (hs : List.Sorted (· ≤ ·) s)
    {h1 h2 : ℚ} (h1nn : 0 ≤ h1) (h12 : h1 ≤ h2)
    (h2ub : h2 ≤ (s.length : ℚ) - 1) :
    interpolate s h1 ≤ interpolate s h2 := by
  have h2nn : 0 ≤ h2 := le_trans h1nn h12
  have hn1 : 1 ≤ s.length := by
    rcases Nat.eq_zero_or_pos s.length with h0 | hpos
    · exfalso
      rw [h0] at h2ub
      norm_num at h2ub
      linarith
    · exact hpos
  have hc1 : (((⌊h1⌋).toNat : ℕ) : ℚ) = ((⌊h1⌋ : ℤ) : ℚ) := by
    norm_cast
    exact Int.toNat_of_nonneg (Int.floor_nonneg.mpr h1nn)
  have hc2 : (((⌊h2⌋).toNat : ℕ) : ℚ) = ((⌊h2⌋ : ℤ) : ℚ) := by
    norm_cast
    exact Int.toNat_of_nonneg (Int.floor_nonneg.mpr h2nn)
  have hf1 : (((⌊h1⌋).toNat : ℕ) : ℚ) ≤ h1 := by rw [hc1]; exact Int.floor_le h1
  have hf2 : (((⌊h2⌋).toNat : ℕ) : ℚ) ≤ h2 := by rw [hc2]; exact Int.floor_le h2
  have hg1 : h1 < (((⌊h1⌋).toNat : ℕ) : ℚ) + 1 := by
    rw [hc1]; exact Int.lt_floor_add_one h1
  have h12n : (⌊h1⌋).toNat ≤ (⌊h2⌋).toNat := Int.toNat_le_toNat (Int.floor_mono h12)
  have hi2lt : (⌊h2⌋).toNat < s.length := by
    have hfl : ⌊h2⌋ ≤ (s.length : ℤ) - 1 := by
      have hcast : ((s.length : ℚ) - 1) = (((s.length : ℤ) - 1 : ℤ) : ℚ) := by
        push_cast
        ring
      rw [hcast] at h2ub
      have := Int.floor_mono h2ub
      rwa [Int.floor_intCast] at this
    have := Int.toNat_le_toNat hfl
    omega
  rw [interpolate_eq, interpolate_eq]
  exact interp_core_mono s hs (⌊h1⌋).toNat (⌊h2⌋).toNat h1 h2 hf1 hg1 hf2 h12 h12n hi2lt

/-- The percentile function is monotone in the requested percentile, for
`0 ≤ q1 ≤ q2 ≤ 100` and a non-empty sample. -/
lemma percentile_mono (xs : List ℚ) (hne : xs ≠ []) {q1 q2 : ℚ}
    (hq1 : 0 ≤ q1) (h12 : q1 ≤ q2) (hq2 : q2 ≤ 100) :
    percentile xs q1 ≤ percentile xs q2 := by
  rw [percentile, percentile]
  have hsorted : (sortQ xs).Sorted (· ≤ ·) := List.sorted_insertionSort _ xs
  have hlen : (sortQ xs).length = xs.length := List.length_insertionSort _ xs
  have hL : 1 ≤ xs.length := List.length_pos.mpr hne
  have hL1 : (0 : ℚ) ≤ (xs.length : ℚ) - 1 := by
    have : (1 : ℚ) ≤ (xs.length : ℚ) := by exact_mod_cast hL
    linarith
  apply interpolate_mono_rank _ hsorted
  · exact mul_nonneg (div_nonneg hq1 (by norm_num)) hL1
  · exact mul_le_mul_of_nonneg_right
      (div_le_div_of_nonneg_right h12 (by norm_num)) hL1
  · rw [hlen]
    have hq : q2 / 100 ≤ 1 := by linarith
    exact mul_le_of_le_one_left hL1 hq

end Bootstrap

namespace Bootstrap

/-! ### C3: compute_cis returns the percentile interval, lower ≤ upper -/

/-- C3: for non-empty `estimates` and `alpha` in (0,1), `compute_cis`
returns the pair of the `100*(alpha/2)`-th and `100*(1-alpha/2)`-th
percentiles of `estimates` (computed with linear interpolation between order
statistics), and the lower bound never exceeds the upper bound. -/
theorem compute_cis_spec (estimates : List ℚ) (alpha : ℚ)
    (hne : estimates ≠ []) (h0 : 0 < alpha) (h1 : alpha < 1) :
    compute_cis estimates alpha
      = .ok (percentile estimates (100 * (alpha / 2)),
             percentile estimates (100 * (1 - alpha / 2))) ∧
    percentile estimates (100 * (alpha / 2))
      ≤ percentile estimates (100 * (1 - alpha / 2)) := by
  constructor
  · rw [compute_cis, if_neg (by simp [hne]), if_neg (by simp [h0, h1])]
  · exact percentile_mono estimates hne (by linarith) (by linarith) (by linarith)

/-- C3 witness. -/
theorem compute_cis_spec_witness :
    compute_cis [1, 5, 2] (1 / 2)
      = .ok (percentile [1, 5, 2] (100 * ((1 / 2) / 2)),
             percentile [1, 5, 2] (100 * (1 - (1 / 2) / 2))) ∧
    percentile [1, 5, 2] (100 * ((1 / 2) / 2))
      ≤ percentile [1, 5, 2] (100 * (1 - (1 / 2) / 2)) :=
  compute_cis_spec [1, 5, 2] (1 / 2) (by decide) (by norm_num) (by norm_num)

/-! ### C8: decreasing alpha widens the confidence interval -/

/-- C8: for fixed non-empty `estimates` and significance levels
`alpha2 < alpha1` in (0,1), the interval returned for `alpha2` contains the
one returned for `alpha1`: the lower bound does not increase and the upper
bound does not decrease when `alpha` decreases. -/
theorem compute_cis_monotone (estimates : List ℚ) (alpha1 alpha2 : ℚ)
    (hne : estimates ≠ []) (h2pos : 0 < alpha2) (h21 : alpha2 < alpha1)
    (h1lt : alpha1 < 1) :
    compute_cis estimates alpha1
      = .ok (percentile estimates (100 * (alpha1 / 2)),
             percentile estimates (100 * (1 - alpha1 / 2))) ∧
    compute_cis estimates alpha2
      = .ok (percentile estimates (100 * (alpha2 / 2)),
             percentile estimates (100 * (1 - alpha2 / 2))) ∧
    percentile estimates (100 * (alpha2 / 2))
      ≤ percentile estimates (100 * (alpha1 / 2)) ∧
    percentile estimates (100 * (1 - alpha1 / 2))
      ≤ percentile estimates (100 * (1 - alpha2 / 2)) := by
  have h1pos : 0 < alpha1 := lt_trans h2pos h21
  have h2lt : alpha2 < 1 := lt_trans h21 h1lt
  refine ⟨?_, ?_, ?_, ?_⟩
  · rw [compute_cis, if_neg (by simp [hne]), if_neg (by simp [h1pos, h1lt])]
  · rw [compute_cis, if_neg (by simp [hne]), if_neg (by simp [h2pos, h2lt])]
  · exact percentile_mono estimates hne (by linarith) (by linarith) (by linarith)
  · exact percentile_mono estimates hne (by linarith) (by linarith) (by linarith)

/-- C8 witness. -/
theorem compute_cis_monotone_witness :
    compute_cis [1, 5, 2] (1 / 2)
      = .ok (percentile [1, 5, 2] (100 * ((1 / 2) / 2)),
             percentile [1, 5, 2] (100 * (1 - (1 / 2) / 2))) ∧
    compute_cis [1, 5, 2] (1 / 4)
      = .ok (percentile [1, 5, 2] (100 * ((1 / 4) / 2)),
             percentile [1, 5, 2] (100 * (1 - (1 / 4) / 2))) ∧
    percentile [1, 5, 2] (100 * ((1 / 4) / 2))
      ≤ percentile [1, 5, 2] (100 * ((1 / 2) / 2)) ∧
    percentile [1, 5, 2] (100 * (1 - (1 / 2) / 2))
      ≤ percentile [1, 5, 2] (100 * (1 - (1 / 4) / 2)) :=
  compute_cis_monotone [1, 5, 2] (1 / 2) (1 / 4) (by decide) (by norm_num)
    (by norm_num) (by norm_num)

end Bootstrap

namespace Bootstrap

/-! ### C6: behaviour when the median sits exactly at the reference value -/

lemma sorted_getElem_le (s : List ℚ) (hs : List.Sorted (· ≤ ·) s) {i j : ℕ}
    (hij : i ≤ j) (hi : i < s.length) (hj : j < s.length) : s[i] ≤ s[j] := by
  have := hs.rel_get_of_le (a := ⟨i, hi⟩) (b := ⟨j, hj⟩) hij
  simpa using this

lemma compute_pvalue_eq (estimates : List ℚ) (value : ℚ) (hne : estimates ≠ []) :
    compute_pvalue estimates value = .ok (min (2 * min
      (((estimates.filter (fun x => x < value)).length : ℚ) / (estimates.length : ℚ))
      (((estimates.filter (fun x => value < x)).length : ℚ) / (estimates.length : ℚ))) 1) := by
  rw [compute_pvalue, if_neg (by simp [hne])]

/-- C6 counterexample: the estimate distribution `[0, 0, 0]` has its median
exactly at the reference value 0, yet `compute_pvalue` returns 0 — the
opposite extreme of a p-value approaching 1 — because estimates tied with
the reference value are excluded from both tails. -/
theorem pvalue_median_counterexample :
    median [0, 0, 0] = 0 ∧ compute_pvalue [0, 0, 0] 0 = .ok 0 := by
  constructor
  · norm_num [median, sortQ, List.insertionSort, List.orderedInsert]
  · rw [compute_pvalue_eq [0, 0, 0] 0 (by decide)]
    norm_num

end Bootstrap

namespace Bootstrap

/-- In a sorted list of even length `2m` whose two middle elements straddle
`value` strictly, exactly `m` elements lie strictly below `value` and exactly
`m` strictly above. -/
lemma sorted_filter_counts (s : List ℚ) (value : ℚ)
    (hsorted : List.Sorted (· ≤ ·) s) (m : ℕ) (hm : s.length = 2 * m)
    (hmpos : 0 < m) (halt : s.getD (m - 1) 0 < value)
    (hblt : value < s.getD m 0) :
    (s.filter (fun x => x < value)).length = m ∧
    (s.filter (fun x => value < x)).length = m := by
  have hm1lt : m - 1 < s.length := by omega
  have hmlt : m < s.length := by omega
  have htake : (s.take m).length = m := by rw [List.length_take]; omega
  have hdrop : (s.drop m).length = m := by rw [List.length_drop]; omega
  have hbelow : ∀ j, j < m → ∀ hj : j < s.length, s[j] < value := by
    intro j hjm hj
    have hchain : s[j] ≤ s.getD (m - 1) 0 := by
      rw [List.getD_eq_getElem _ _ hm1lt]
      exact sorted_getElem_le _ hsorted (by omega) hj hm1lt
    linarith
  have habove : ∀ j, m ≤ j → ∀ hj : j < s.length, value < s[j] := by
    intro j hjm hj
    have hchain : s.getD m 0 ≤ s[j] := by
      rw [List.getD_eq_getElem _ _ hmlt]
      exact sorted_getElem_le _ hsorted hjm hmlt hj
    linarith
  have h1 : List.filter (fun x => decide (x < value)) (s.take m) = s.take m := by
    rw [List.filter_eq_self]
    intro x hx
    obtain ⟨j, hj, rfl⟩ := List.mem_iff_getElem.mp hx
    rw [List.getElem_take, decide_eq_true_eq]
    have hjm : j < m := by rw [htake] at hj; exact hj
    exact hbelow j hjm (by omega)
  have h2 : List.filter (fun x => decide (x < value)) (s.drop m) = [] := by
    rw [List.filter_eq_nil_iff]
    intro x hx
    obtain ⟨j, hj, rfl⟩ := List.mem_iff_getElem.mp hx
    rw [List.getElem_drop, decide_eq_true_eq]
    have hjlen : m + j < s.length := by rw [List.length_drop] at hj; omega
    exact not_lt.mpr (le_of_lt (habove (m + j) (Nat.le_add_right m j) hjlen))
  have h3 : List.filter (fun x => decide (value < x)) (s.take m) = [] := by
    rw [List.filter_eq_nil_iff]
    intro x hx
    obtain ⟨j, hj, rfl⟩ := List.mem_iff_getElem.mp hx
    rw [List.getElem_take, decide_eq_true_eq]
    have hjm : j < m := by rw [htake] at hj; exact hj
    exact not_lt.mpr (le_of_lt (hbelow j hjm (by omega)))
  have h4 : List.filter (fun x => decide (value < x)) (s.drop m) = s.drop m := by
    rw [List.filter_eq_self]
    intro x hx
    obtain ⟨j, hj, rfl⟩ := List.mem_iff_getElem.mp hx
    rw [List.getElem_drop, decide_eq_true_eq]
    have hjlen : m + j < s.length := by rw [List.length_drop] at hj; omega
    exact habove (m + j) (Nat.le_add_right m j) hjlen
  constructor
  · conv_lhs => rw [← List.take_append_drop m s]
    rw [List.filter_append, h1, h2, List.append_nil, htake]
  · conv_lhs => rw [← List.take_append_drop m s]
    rw [List.filter_append, h3, h4, List.nil_append, hdrop]

end Bootstrap

namespace Bootstrap

/-- C6 (amended): if the median of non-empty `estimates` equals `value` and
no estimate ties exactly with `value`, `compute_pvalue` returns exactly
`.ok 1` — the degenerate input is handled as correct behaviour (maximal
p-value, no significant difference), not as an error. -/
theorem compute_pvalue_median_exact_one (estimates : List ℚ) (value : ℚ)
    (hne : estimates ≠ []) (hnotin : value ∉ estimates)
    (hmed : median estimates = value) :
    compute_pvalue estimates value = .ok 1 := by
  have hperm : (sortQ estimates).Perm estimates := List.perm_insertionSort _ _
  have hsorted : (sortQ estimates).Sorted (· ≤ ·) :=
    List.sorted_insertionSort _ _
  have hslen : (sortQ estimates).length = estimates.length :=
    List.length_insertionSort _ _
  have hnpos : 0 < estimates.length := List.length_pos.mpr hne
  have hnotins : value ∉ sortQ estimates := fun hv => hnotin (hperm.mem_iff.mp hv)
  simp only [median] at hmed
  by_cases hodd : (sortQ estimates).length % 2 = 1
  · rw [if_pos hodd] at hmed
    exact absurd (hmed ▸ getD_mem (sortQ estimates) 0 (by omega)) hnotins
  · rw [if_neg hodd] at hmed
    obtain ⟨m, hm⟩ : ∃ m, (sortQ estimates).length = 2 * m :=
      ⟨(sortQ estimates).length / 2, by omega⟩
    have hmpos : 0 < m := by omega
    have hidx : (sortQ estimates).length / 2 = m := by omega
    rw [hidx] at hmed
    have hm1lt : m - 1 < (sortQ estimates).length := by omega
    have hmlt : m < (sortQ estimates).length := by omega
    have hab : (sortQ estimates).getD (m - 1) 0 ≤ (sortQ estimates).getD m 0 :=
      sorted_getD_le _ hsorted (by omega) hmlt
    have hane : (sortQ estimates).getD (m - 1) 0 ≠ value :=
      fun h => hnotins (h ▸ getD_mem _ 0 hm1lt)
    have hbne : (sortQ estimates).getD m 0 ≠ value :=
      fun h => hnotins (h ▸ getD_mem _ 0 hmlt)
    have halt : (sortQ estimates).getD (m - 1) 0 < value := by
      rcases lt_or_le ((sortQ estimates).getD (m - 1) 0) value with h | h
      · exact h
      · exact absurd (le_antisymm (by linarith) h) hane
    have hblt : value < (sortQ estimates).getD m 0 := by
      rcases lt_or_le value ((sortQ estimates).getD m 0) with h | h
      · exact h
      · exact absurd (le_antisymm h (by linarith)) hbne
    obtain ⟨hcb, hca⟩ := sorted_filter_counts (sortQ estimates) value hsorted
      m hm hmpos halt hblt
    have hpb : ((estimates.filter (fun x => x < value)).length) = m := by
      rw [← (hperm.filter (fun x => decide (x < value))).length_eq]
      exact hcb
    have hpa : ((estimates.filter (fun x => value < x)).length) = m := by
      rw [← (hperm.filter (fun x => decide (value < x))).length_eq]
      exact hca
    rw [compute_pvalue_eq estimates value hne, hpb, hpa, ← hslen, hm]
    have hmq : (0 : ℚ) < (m : ℚ) := by exact_mod_cast hmpos
    have hhalf : (m : ℚ) / ((2 * m : ℕ) : ℚ) = 1 / 2 := by
      push_cast
      rw [div_eq_div_iff (by linarith) (by norm_num)]
      ring
    rw [hhalf, min_self]
    norm_num

/-- C6 witness. -/
theorem compute_pvalue_median_exact_one_witness :
    compute_pvalue [(-2 : ℚ), -1, 1, 2] 0 = .ok 1 :=
  compute_pvalue_median_exact_one [(-2 : ℚ), -1, 1, 2] 0 (by decide)
    (by decide)
    (by norm_num [median, sortQ, List.insertionSort, List.orderedInsert])

end Bootstrap
